import Mathlib

/-!
Shallow embedding of the rcue CUE-sheet reader (src/util.rs, src/errors.rs,
src/parser.rs) and proofs about its specification.

Rust strings are modelled as Lean strings (lists of Unicode scalar values);
Rust machine integers as natural numbers with explicit wrapping where the
source can overflow; Rust f64 values as exact rationals together with the
special values inf / -inf / NaN, with every rounding step made explicit;
fallible Rust functions return Except, and a Rust panic is modelled as
Option.none propagated through the callers.
-/

set_option maxRecDepth 40000

deriving instance DecidableEq for Except

namespace Rcue

/-! ## Character and token utilities -/

/-- Unicode White_Space property, as used by Rust str::trim via
char::is_whitespace. -/
def rustIsWhitespace (c : Char) : Bool :=
  let n := c.toNat
  (0x9 ≤ n && n ≤ 0xD) || n == 0x20 || n == 0x85 || n == 0xA0 || n == 0x1680 ||
    (0x2000 ≤ n && n ≤ 0x200A) || n == 0x2028 || n == 0x2029 || n == 0x202F ||
    n == 0x205F || n == 0x3000

/-- Rust str::trim: remove leading and trailing whitespace. -/
def rustTrim (l : List Char) : List Char :=
  ((l.dropWhile rustIsWhitespace).reverse.dropWhile rustIsWhitespace).reverse

/-- Rust str::split(' '): split at every space character; consecutive
separators produce empty items, and the empty string yields one empty item. -/
def splitSp : List Char → List (List Char)
  | [] => [[]]
  | c :: rest =>
    match splitSp rest with
    | [] => [[]]
    | t :: ts => if c = ' ' then [] :: t :: ts else (c :: t) :: ts

/-- Rust Itertools::join(" ") on the remaining tokens. -/
def joinSp (ts : List (List Char)) : List Char :=
  List.intercalate [' '] ts

/-- Rust slice::split_last: the last element together with everything before
it. -/
def splitLastTok {α : Type} : List α → Option (List α × α)
  | [] => Option.none
  | [a] => some ([], a)
  | a :: b :: rest => (splitLastTok (b :: rest)).map fun p => (a :: p.1, p.2)

/-- Rust char::to_uppercase restricted to its ASCII behavior. The source
compares the uppercased keyword token against the ASCII keywords REM, CATALOG,
TITLE, FILE, PERFORMER, TRACK, PREGAP, POSTGAP and INDEX; on ASCII input the
full Unicode mapping and this restriction agree. -/
def asciiUpper (c : Char) : Char :=
  if 'a' ≤ c && c ≤ 'z' then Char.ofNat (c.toNat - 32) else c

/-- Uppercase every character of a token. -/
def upperTok (l : List Char) : List Char :=
  l.map asciiUpper

/-! ## unescape_quotes (src/util.rs lines 24-33)

The parser module imports this function under the name unescape_string; the
only definition in the sources is util.rs's unescape_quotes. -/

/-- Rust str::replace("\\\"", "\""): scan left to right, replacing each
non-overlapping backslash-quote pair by a quote. -/
def replaceEsc : List Char → List Char
  | [] => []
  | [c] => [c]
  | c :: d :: rest =>
    if c = '\\' && d = '"' then '"' :: replaceEsc rest
    else c :: replaceEsc (d :: rest)

/-- Core of unescape_quotes on character lists. After the replacement the
source pops the last character and then calls String::remove(0), which panics
(modelled as none) when the popped string is empty, i.e. exactly when the
replaced string is the single character quote. -/
def unescapeL (l : List Char) : Option (List Char) :=
  let u := replaceEsc l
  if u.getLast? = some '"' && u.head? = some '"' then
    match u.dropLast with
    | [] => Option.none
    | _ :: t => some t
  else some u

/-- Embedding of util.rs unescape_quotes; none models a panic. -/
def unescape_quotes (s : String) : Option String :=
  (unescapeL s.data).map String.mk

/-! ## Errors (src/errors.rs) -/

/-- Embedding of the CueError enum; the io variant carries the message of the
underlying I/O error. -/
inductive CueError where
  | parse : String → CueError
  | io : String → CueError
deriving DecidableEq

/-! ## Tokens (src/parser.rs lines 10-23) -/

/-- Embedding of the Token enum of parser.rs. Note that this version of the
parser has no CDTEXTFILE, FLAGS, ISRC or SONGWRITER variants. -/
inductive Token where
  | rem : String → String → Token
  | catalog : String → Token
  | performer : String → Token
  | title : String → Token
  | file : String → String → Token
  | track : String → String → Token
  | index : String → String → Token
  | pregap : String → Token
  | postgap : String → Token
  | unknown : String → Token
  | none : Token
deriving DecidableEq

/-- Dispatch on the uppercased first token of a line, mirroring the match in
tokenize_line. Returns the remaining branches of tokenize_line applied to the
remaining tokens; raw is the original untrimmed line (used by the Unknown
variant), and none models a panic inside unescape_string. -/
def tokenizeCore (toks : List (List Char)) (raw : String) :
    Option (Except CueError Token) :=
  match toks with
  | [] => some (.ok .none)
  | t :: rest =>
    let u := upperTok t
    if u = "REM".data then
      match rest with
      | [] => some (.error (.parse "missing REM key"))
      | key :: rest2 =>
        (unescapeL (joinSp rest2)).map fun v => .ok (.rem ⟨key⟩ ⟨v⟩)
    else if u = "CATALOG".data then
      (unescapeL (joinSp rest)).map fun v => .ok (.catalog ⟨v⟩)
    else if u = "TITLE".data then
      (unescapeL (joinSp rest)).map fun v => .ok (.title ⟨v⟩)
    else if u = "FILE".data then
      match splitLastTok rest with
      | Option.none => some (.error (.parse "bare FILE token"))
      | some (vals, format) =>
        (unescapeL (joinSp vals)).map fun v => .ok (.file ⟨v⟩ ⟨format⟩)
    else if u = "PERFORMER".data then
      (unescapeL (joinSp rest)).map fun v => .ok (.performer ⟨v⟩)
    else if u = "TRACK".data then
      match rest with
      | [] => some (.error (.parse "missing TRACK number"))
      | no :: rest2 =>
        match rest2 with
        | [] => some (.error (.parse "missing TRACK mode"))
        | mode :: _ => some (.ok (.track ⟨no⟩ ⟨mode⟩))
    else if u = "PREGAP".data then
      match rest with
      | [] => some (.error (.parse "missing PREGAP duration"))
      | ts :: _ => some (.ok (.pregap ⟨ts⟩))
    else if u = "POSTGAP".data then
      match rest with
      | [] => some (.error (.parse "missing POSTGAP duration"))
      | ts :: _ => some (.ok (.postgap ⟨ts⟩))
    else if u = "INDEX".data then
      match rest with
      | [] => some (.error (.parse "missing INDEX number"))
      | no :: rest2 =>
        match rest2 with
        | [] => some (.error (.parse "missing INDEX time"))
        | time :: _ => some (.ok (.index ⟨no⟩ ⟨time⟩))
    else if t = [] then some (.ok .none)
    else some (.ok (.unknown raw))

/-- Embedding of tokenize_line (src/parser.rs lines 282-350): trim the line,
split it on single spaces and dispatch on the uppercased first token. -/
def tokenize_line (line : String) : Option (Except CueError Token) :=
  tokenizeCore (splitSp (rustTrim line.data)) line

/-! ## IEEE-754 binary64 model

timestamp_to_duration (src/util.rs lines 53-70) computes with Rust f64.
An f64 value is modelled as an exact rational for finite values plus the
special values inf, -inf and NaN; each f64 operation that rounds is made
explicit through roundF64, round-to-nearest with ties to even on the
binary64 grid (52 explicit mantissa bits, exponents -1022..1023, gradual
underflow, overflow to infinity). -/

inductive F64 where
  | finite : ℚ → F64
  | inf : F64
  | neginf : F64
  | nan : F64
deriving DecidableEq

/-- Integer power of two as a rational, via kernel-friendly Nat.pow. -/
def q2pow (k : ℤ) : ℚ :=
  if 0 ≤ k then ((2 ^ k.toNat : ℕ) : ℚ) else 1 / ((2 ^ (-k).toNat : ℕ) : ℚ)

/-- Round a rational to an integer, nearest with ties to even. -/
def roundEvenQ (q : ℚ) : ℤ :=
  let n := ⌊q⌋
  let r := q - n
  if r < 1 / 2 then n
  else if 1 / 2 < r then n + 1
  else if n % 2 = 0 then n else n + 1

/-- Exponent search upward, for a ≥ 1: starting from candidate j, find the
first j with a < 2 ^ (j + 1), so that 2 ^ j ≤ a < 2 ^ (j + 1). The fuel
bounds the search; exhaustion (beyond every finite binary64) reports the
probe bound itself, which the overflow test below sends to infinity. -/
def expUp (a : ℚ) : ℕ → ℕ → ℕ
  | j, 0 => j
  | j, fuel + 1 => if a < q2pow ((j : ℤ) + 1) then j else expUp a (j + 1) fuel

/-- Exponent search downward, for 0 < a < 1: starting from candidate j, find
the first j with 2 ^ (-j) ≤ a, so that 2 ^ (-j) ≤ a < 2 ^ (-j + 1). Fuel
exhaustion at j = 1022 clamps the exponent to -1022, the fixed scale of the
subnormal range (gradual underflow). -/
def expDown (a : ℚ) : ℕ → ℕ → ℤ
  | _, 0 => -1022
  | j, fuel + 1 => if q2pow (-(j : ℤ)) ≤ a then -(j : ℤ) else expDown a (j + 1) fuel

/-- Round an exact rational to the nearest binary64 value (ties to even),
with gradual underflow and overflow to infinity. With 2 ^ e ≤ |q| < 2 ^ (e+1)
(e clamped to -1022 below), the mantissa m is the nearest integer (ties to
even) to |q| * 2 ^ (52 - e), and the result m * 2 ^ (e - 52) overflows
exactly when e ≥ 1024, or e = 1023 and the rounding carried m up to 2 ^ 53,
which reproduces the IEEE overflow threshold 2 ^ 1024 - 2 ^ 970. -/
def roundF64 (q : ℚ) : F64 :=
  if q = 0 then .finite 0
  else
    let s := q < 0
    let a := if s then -q else q
    let e : ℤ := if a < 1 then expDown a 1 1021 else (expUp a 0 1100 : ℤ)
    let scale : ℤ := 52 - e
    let m : ℤ := roundEvenQ (a * q2pow scale)
    if 1024 ≤ e ∨ (e = 1023 ∧ 2 ^ 53 ≤ m) then (if s then .neginf else .inf)
    else
      let r : ℚ := (m : ℚ) * q2pow (-scale)
      .finite (if s then -r else r)

/-- Truncation toward zero of a rational to an integer. -/
def truncQ (q : ℚ) : ℤ :=
  if 0 ≤ q then ⌊q⌋ else ⌈q⌉

/-- Rust f64 division by the constant 75.0 from the source (the only f64
division performed): correctly rounded on finite values. -/
def F64.div75 : F64 → F64
  | .finite a => roundF64 (a / 75)
  | .inf => .inf
  | .neginf => .neginf
  | .nan => .nan

/-- Rust f64::floor: exact on finite values. -/
def F64.floorF : F64 → F64
  | .finite a => .finite (⌊a⌋ : ℤ)
  | .inf => .inf
  | .neginf => .neginf
  | .nan => .nan

/-- Rust f64::fract, defined as self - self.trunc(). On a finite binary64
value the subtraction is exact, so no rounding step occurs; on infinities the
subtraction gives NaN. -/
def F64.fract : F64 → F64
  | .finite a => .finite (a - truncQ a)
  | .inf => .nan
  | .neginf => .nan
  | .nan => .nan

/-- Rust f64 multiplication by the constant 1000000000f64 from the source
(the only f64 multiplication): correctly rounded on finite values. -/
def F64.mul1e9 : F64 → F64
  | .finite a => roundF64 (a * 1000000000)
  | .inf => .inf
  | .neginf => .neginf
  | .nan => .nan

/-- Rust cast expression (x as u64): truncate toward zero and saturate to
[0, 2^64 - 1]; NaN casts to 0. -/
def F64.castU64 : F64 → ℕ
  | .finite a => (min (max (truncQ a) 0) (2 ^ 64 - 1)).toNat
  | .inf => 2 ^ 64 - 1
  | .neginf => 0
  | .nan => 0

/-- Rust cast expression (x as u32): truncate toward zero and saturate to
[0, 2^32 - 1]; NaN casts to 0. -/
def F64.castU32 : F64 → ℕ
  | .finite a => (min (max (truncQ a) 0) (2 ^ 32 - 1)).toNat
  | .inf => 2 ^ 32 - 1
  | .neginf => 0
  | .nan => 0

/-! ## Rust numeric string parsing -/

/-- ASCII digit test. -/
def isDigitCh (c : Char) : Bool :=
  '0' ≤ c && c ≤ '9'

/-- Numeric value of a digit string. -/
def digitsToNat (l : List Char) : ℕ :=
  l.foldl (fun acc c => acc * 10 + (c.toNat - 48)) 0

/-- Rust u64::from_str (str::parse::<u64>): an optional leading plus sign
followed by one or more ASCII digits, rejecting values of 2^64 or more. The
error strings are the Display messages of the corresponding ParseIntError
kinds. -/
def parseU64 (l : List Char) : Except String ℕ :=
  match l with
  | [] => .error "cannot parse integer from empty string"
  | c :: rest =>
    let digits := if c = '+' then rest else l
    if digits = [] then .error "invalid digit found in string"
    else if digits.all isDigitCh then
      let v := digitsToNat digits
      if v < 2 ^ 64 then .ok v
      else .error "number too large to fit in target type"
    else .error "invalid digit found in string"

/-- ASCII lowercase, for the case-insensitive inf / infinity / nan match of
Rust f64 parsing. -/
def asciiLower (c : Char) : Char :=
  if 'A' ≤ c && c ≤ 'Z' then Char.ofNat (c.toNat + 32) else c

/-- Lexed shape of a Rust float literal: sign, integral digits, fractional
digits (with whether a decimal point was present), exponent sign and digits
(with whether an exponent marker was present). -/
structure FloatLex where
  neg : Bool
  intPart : List Char
  hasPoint : Bool
  fracPart : List Char
  hasExp : Bool
  expNeg : Bool
  expPart : List Char
deriving DecidableEq

/-- Split an optional leading sign from a character list. -/
def splitSign (l : List Char) : Bool × List Char :=
  match l with
  | '+' :: rest => (false, rest)
  | '-' :: rest => (true, rest)
  | _ => (false, l)

/-- Lex the Number grammar of Rust f64::from_str after the sign:
Digits '.'? Digits? Exp? or '.' Digits Exp?, with Exp = (e|E) Sign? Digits. -/
def lexFloat (neg : Bool) (l : List Char) : Option FloatLex :=
  let ip := l.takeWhile isDigitCh
  let r1 := l.drop ip.length
  match r1 with
  | [] => if ip = [] then Option.none else
      some ⟨neg, ip, false, [], false, false, []⟩
  | c :: r2 =>
    if c = '.' then
      let fp := r2.takeWhile isDigitCh
      let r3 := r2.drop fp.length
      if ip = [] && fp = [] then Option.none
      else
        match r3 with
        | [] => some ⟨neg, ip, true, fp, false, false, []⟩
        | e :: r4 =>
          if e = 'e' || e = 'E' then
            let (en, r5) := splitSign r4
            if r5 ≠ [] ∧ r5.all isDigitCh then
              some ⟨neg, ip, true, fp, true, en, r5⟩
            else Option.none
          else Option.none
    else if (c = 'e' || c = 'E') && ip ≠ [] then
      let (en, r5) := splitSign r2
      if r5 ≠ [] ∧ r5.all isDigitCh then
        some ⟨neg, ip, false, [], true, en, r5⟩
      else Option.none
    else Option.none

/-- Exact rational value and rounding of a lexed finite float literal.
Mirrors Rust's correctly rounded decimal-to-binary64 conversion, returning
inf on overflow and 0 on underflow; decimal exponents far outside the
binary64 range are short-circuited to those results so that the value
10 ^ exponent never has to be materialized. -/
def floatLexValue (f : FloatLex) : F64 :=
  let mant : ℕ := digitsToNat (f.intPart ++ f.fracPart)
  let e10 : ℤ :=
    (if f.expNeg then -(digitsToNat f.expPart : ℤ) else (digitsToNat f.expPart : ℤ)) -
      f.fracPart.length
  if mant = 0 then .finite 0
  else if 400 ≤ e10 then (if f.neg then .neginf else .inf)
  else if e10 + (f.intPart.length + f.fracPart.length : ℤ) < -400 then .finite 0
  else
    let q : ℚ :=
      if 0 ≤ e10 then (mant : ℚ) * ((10 ^ e10.toNat : ℕ) : ℚ)
      else (mant : ℚ) / ((10 ^ (-e10).toNat : ℕ) : ℚ)
    roundF64 (if f.neg then -q else q)

/-- Rust f64::from_str (str::parse::<f64>): optional sign, then inf, infinity
or nan case-insensitively, or a correctly rounded decimal literal. The error
string is the Display message of ParseFloatError. -/
def parseF64 (l : List Char) : Except String F64 :=
  let (neg, body) := splitSign l
  let low := body.map asciiLower
  if low = "inf".data ∨ low = "infinity".data then
    .ok (if neg then .neginf else .inf)
  else if low = "nan".data then .ok .nan
  else
    match lexFloat neg body with
    | Option.none => .error "invalid float literal"
    | some f => .ok (floatLexValue f)

/-! ## timestamp_to_duration (src/util.rs lines 53-70) -/

/-- Embedding of std::time::Duration: whole seconds (u64) and a nanosecond
part (u32, always below 10^9 after construction). -/
structure Duration where
  secs : ℕ
  nanos : ℕ
deriving DecidableEq

/-- Rust Duration::new: carry whole seconds out of the nanosecond part. The
checked u64 overflow panic of the source is unreachable from
timestamp_to_duration because the nanosecond argument is always below 10^9. -/
def Duration.new (s n : ℕ) : Duration :=
  ⟨s + n / 1000000000, n % 1000000000⟩

/-- Wrapping u64 addition (release-profile semantics of the + in the source;
every input reached by a claim stays far below 2^64). -/
def wAdd (a b : ℕ) : ℕ :=
  (a + b) % 2 ^ 64

/-- Wrapping u64 multiplication (release-profile semantics). -/
def wMul (a b : ℕ) : ℕ :=
  (a * b) % 2 ^ 64

/-- Rust Chars::take_while(|c| *c != ':') on the iterator: the group before
the next colon, and the remainder with the colon itself consumed. -/
def nextGroup (l : List Char) : List Char × List Char :=
  let g := l.takeWhile (· != ':')
  (g, l.drop (g.length + 1))

/-- Embedding of timestamp_to_duration on character lists, preserving the
evaluation order of the source: the frames field is parsed as f64 first, then
minutes and seconds as u64; any parse error is wrapped into
CueError::Parse("invalid timestamp: ...") by the From impls in errors.rs. -/
def t2dL (l : List Char) : Except CueError Duration :=
  let p1 := nextGroup l
  let p2 := nextGroup p1.2
  let minutes := p1.1
  let seconds := p2.1
  let frames := p2.2
  match parseF64 frames with
  | .error e => .error (.parse ("invalid timestamp: " ++ e))
  | .ok fv =>
    let frameSeconds := fv.div75
    match parseU64 minutes with
    | .error e => .error (.parse ("invalid timestamp: " ++ e))
    | .ok m =>
      match parseU64 seconds with
      | .error e => .error (.parse ("invalid timestamp: " ++ e))
      | .ok s =>
        .ok (Duration.new
          (wAdd (wAdd (wMul m 60) s) frameSeconds.floorF.castU64)
          frameSeconds.fract.mul1e9.castU32)

/-- Embedding of util.rs timestamp_to_duration. -/
def timestamp_to_duration (s : String) : Except CueError Duration :=
  t2dL s.data

/-! ## Data model of parser.rs (lines 25-109)

This parser module defines its own Track, CueFile and Cue structs; they have
no songwriter, cd_text_file, isrc or flags fields (the richer structs in
cue.rs are not used by parse). -/

/-- Embedding of parser.rs Track. -/
structure Track where
  no : String
  format : String
  title : Option String
  performer : Option String
  indices : List (String × Duration)
  pregap : Option Duration
  postgap : Option Duration
  comments : List (String × String)
  unknown : List String
deriving DecidableEq

/-- Embedding of Track::new. -/
def Track.new (no format : String) : Track :=
  ⟨no, format, Option.none, Option.none, [], Option.none, Option.none, [], []⟩

/-- Embedding of parser.rs CueFile. -/
structure CueFile where
  file : String
  format : String
  tracks : List Track
  comments : List (String × String)
deriving DecidableEq

/-- Embedding of CueFile::new. -/
def CueFile.new (file format : String) : CueFile :=
  ⟨file, format, [], []⟩

/-- Embedding of parser.rs Cue. -/
structure Cue where
  files : List CueFile
  title : Option String
  performer : Option String
  catalog : Option String
  comments : List (String × String)
  unknown : List String
deriving DecidableEq

/-- Embedding of Cue::new. -/
def Cue.new : Cue :=
  ⟨[], Option.none, Option.none, Option.none, [], []⟩

/-! ## The assembler (src/parser.rs lines 159-279) -/

/-- Replace the last element of a list in place (Vec::last_mut mutation). -/
def modifyLast {α : Type} (f : α → α) : List α → List α
  | [] => []
  | [a] => [f a]
  | a :: b :: rest => a :: modifyLast f (b :: rest)

/-- Helper last_file of parse: the last file pushed onto the cue, if any. -/
def Cue.lastFile? (c : Cue) : Option CueFile :=
  c.files.getLast?

/-- Helper last_track of parse: the last track of the last file, if any. -/
def Cue.lastTrack? (c : Cue) : Option Track :=
  c.lastFile?.bind fun f => f.tracks.getLast?

/-- Mutate the last file of the cue. -/
def Cue.modifyLastFile (c : Cue) (f : CueFile → CueFile) : Cue :=
  { c with files := modifyLast f c.files }

/-- Mutate the last track of the last file of the cue. -/
def Cue.modifyLastTrack (c : Cue) (f : Track → Track) : Cue :=
  c.modifyLastFile fun cf => { cf with tracks := modifyLast f cf.tracks }

/-- Dispatch target of a TITLE command: the most recently opened track of the
most recently opened file when one exists, otherwise the disc. -/
def Cue.withTitle (c : Cue) (s : String) : Cue :=
  if c.lastTrack?.isSome then c.modifyLastTrack fun t => { t with title := some s }
  else { c with title := some s }

/-- Dispatch target of a PERFORMER command: the most recently opened track of
the most recently opened file when one exists, otherwise the disc. -/
def Cue.withPerformer (c : Cue) (s : String) : Cue :=
  if c.lastTrack?.isSome then
    c.modifyLastTrack fun t => { t with performer := some s }
  else { c with performer := some s }

/-- Dispatch target of a REM comment: the last track, else the last file,
else the disc. -/
def Cue.pushComment (c : Cue) (kv : String × String) : Cue :=
  if c.lastTrack?.isSome then
    c.modifyLastTrack fun t => { t with comments := t.comments ++ [kv] }
  else if c.lastFile?.isSome then
    c.modifyLastFile fun f => { f with comments := f.comments ++ [kv] }
  else { c with comments := c.comments ++ [kv] }

/-- Dispatch target of an unknown line: the last track if any, else the
disc. -/
def Cue.pushUnknown (c : Cue) (raw : String) : Cue :=
  if c.lastTrack?.isSome then
    c.modifyLastTrack fun t => { t with unknown := t.unknown ++ [raw] }
  else { c with unknown := c.unknown ++ [raw] }

/-- Embedding of the fail_if_strict macro: in strict mode return the error
and abandon the line; in lenient mode keep the given continuation state. -/
def failIfStrict (strict : Bool) (reason : String) (c : Cue) :
    Except CueError Cue :=
  if strict then .error (.parse ("strict mode failure: " ++ reason))
  else .ok c

/-- Dispatch of one tokenized line, mirroring the match over the token in the
loop body of parse. In the Unknown arm the push below fail_if_strict only
runs in lenient mode, and the source uses the reason string
"bad PREGAP timestamp" for POSTGAP timestamps as well. -/
def dispatch (strict : Bool) (c : Cue) (tk : Except CueError Token) :
    Except CueError Cue :=
  match tk with
  | .ok (.rem k v) => .ok (c.pushComment (k, v))
  | .ok (.file f fmt) => .ok { c with files := c.files ++ [CueFile.new f fmt] }
  | .ok (.track no mode) =>
    if c.lastFile?.isSome then
      .ok (c.modifyLastFile fun cf =>
        { cf with tracks := cf.tracks ++ [Track.new no mode] })
    else failIfStrict strict "TRACK assigned to no FILE" c
  | .ok (.title s) => .ok (c.withTitle s)
  | .ok (.performer s) => .ok (c.withPerformer s)
  | .ok (.index idx time) =>
    if c.lastTrack?.isSome then
      match timestamp_to_duration time with
      | .ok d => .ok (c.modifyLastTrack fun t =>
          { t with indices := t.indices ++ [(idx, d)] })
      | .error _ => failIfStrict strict "bad INDEX timestamp" c
    else failIfStrict strict "INDEX assigned to no track" c
  | .ok (.pregap time) =>
    if c.lastTrack?.isSome then
      match timestamp_to_duration time with
      | .ok d => .ok (c.modifyLastTrack fun t => { t with pregap := some d })
      | .error _ => failIfStrict strict "bad PREGAP timestamp" c
    else failIfStrict strict "PREGAP assigned to no track" c
  | .ok (.postgap time) =>
    if c.lastTrack?.isSome then
      match timestamp_to_duration time with
      | .ok d => .ok (c.modifyLastTrack fun t => { t with postgap := some d })
      | .error _ => failIfStrict strict "bad PREGAP timestamp" c
    else failIfStrict strict "POSTGAP assigned to no track" c
  | .ok (.catalog id) => .ok { c with catalog := some id }
  | .ok (.unknown line) =>
    if strict then .error (.parse "strict mode failure: unknown token")
    else .ok (c.pushUnknown line)
  | .ok .none => failIfStrict strict "bad line" c
  | .error _ => failIfStrict strict "bad line" c

/-- One iteration of the parse loop on a line that was read successfully:
tokenize it (propagating a panic as none) and dispatch the token. -/
def step (strict : Bool) (c : Cue) (l : String) :
    Option (Except CueError Cue) :=
  match tokenize_line l with
  | Option.none => Option.none
  | some tk => some (dispatch strict c tk)

/-- One line of the buffered byte source: either a line read successfully or
an I/O error (whose message is irrelevant to parse, which skips such lines:
the loop body runs only inside if let Ok(l) = line). -/
abbrev InputLine := Except String String

/-- The parse loop from an arbitrary current cue state. -/
def parseFrom (strict : Bool) (c : Cue) : List InputLine →
    Option (Except CueError Cue)
  | [] => some (.ok c)
  | .error _ :: ls => parseFrom strict c ls
  | .ok l :: ls =>
    match step strict c l with
    | Option.none => Option.none
    | some (.error e) => some (.error e)
    | some (.ok c2) => parseFrom strict c2 ls

/-- Embedding of parser.rs parse: fold the per-line dispatch over the lines
of the byte source, starting from Cue::new; none models a panic. -/
def parse (lines : List InputLine) (strict : Bool) :
    Option (Except CueError Cue) :=
  parseFrom strict Cue.new lines

/-! ## Statement-level definitions used by the claims -/

/-- Two-digit decimal rendering of a value below 100, as produced by the
format specifier {:02}. -/
def fmt2 (n : ℕ) : List Char :=
  [Nat.digitChar (n / 10), Nat.digitChar (n % 10)]

/-- The timestamp string "mm:ss:ff" with two-digit fields. -/
def fmtTs (mm ss ff : ℕ) : List Char :=
  fmt2 mm ++ ':' :: (fmt2 ss ++ ':' :: fmt2 ff)

/-- Nanosecond part actually produced by timestamp_to_duration for a frames
field of numeric value n < 100. It equals the exact value
trunc(fract(n / 75) * 10^9) except at n = 87 and n = 90, where the binary64
rounding of n / 75 falls just below the exact quotient and the result is one
nanosecond smaller. -/
def nanosOf (n : ℕ) : ℕ :=
  if n = 87 then 159999999
  else if n = 90 then 199999999
  else n % 75 * 1000000000 / 75

/-- Check of a successful timestamp conversion. -/
def t2dIsOk : Except CueError Duration → Bool
  | .ok _ => true
  | .error _ => false

/-- Check of a parse outcome that surfaced an error (as opposed to returning
a cue or panicking). -/
def isErrorResult : Option (Except CueError Cue) → Bool
  | some (.error _) => true
  | _ => false

/-- An input line whose processing cannot panic: either an I/O error line
(skipped without tokenizing) or a line on which the tokenizer returns. -/
def lineTokenizes : InputLine → Bool
  | .error _ => true
  | .ok l => (tokenize_line l).isSome

/-- Cue state after FILE f WAVE and TRACK 01 AUDIO, used by the C3
witness. -/
def c3PreCue : Cue :=
  ⟨[⟨"f", "WAVE", [Track.new "01" "AUDIO"], []⟩], Option.none, Option.none,
    Option.none, [], []⟩

/-- Occurrence of the two-character escape sequence backslash-quote somewhere
in a list. -/
def hasEscSeq : List Char → Bool
  | [] => false
  | [_] => false
  | c :: d :: rest => (c = '\\' && d = '"') || hasEscSeq (d :: rest)

/-! ## Supporting lemmas for the timestamp codec -/

theorem nextGroup_append (m rest : List Char) (h : m.all (· != ':') = true) :
    nextGroup (m ++ ':' :: rest) = (m, rest) := by
  have ht : (m ++ ':' :: rest).takeWhile (· != ':') = m := by
    induction m with
    | nil => simp [List.takeWhile_cons]
    | cons c t ih =>
      simp only [List.all_cons, Bool.and_eq_true] at h
      simp [List.takeWhile_cons, h.1, ih h.2]
  have hd : (m ++ ':' :: rest).drop (m.length + 1) = rest := by
    have he : m ++ ':' :: rest = (m ++ [':']) ++ rest := by simp
    have hl : (m ++ [':']).length = m.length + 1 := by simp
    rw [he, ← hl, List.drop_left]
  simp [nextGroup, ht, hd]

theorem fmt2_no_colon : ∀ n : ℕ, n < 100 → (fmt2 n).all (· != ':') = true := by
  decide

theorem parseU64_fmt2 : ∀ n : ℕ, n < 100 → parseU64 (fmt2 n) = .ok n := by
  decide

theorem parseF64_fmt2 : ∀ n : ℕ, n < 100 →
    parseF64 (fmt2 n) = .ok (.finite (n : ℚ)) :=
  of_decide_eq_true (by with_unfolding_all rfl)

theorem frames_floor_fmt2 : ∀ n : ℕ, n < 100 →
    (F64.div75 (.finite (n : ℚ))).floorF.castU64 = n / 75 :=
  of_decide_eq_true (by with_unfolding_all rfl)

theorem frames_nanos_fmt2 : ∀ n : ℕ, n < 100 →
    (F64.div75 (.finite (n : ℚ))).fract.mul1e9.castU32 = nanosOf n :=
  of_decide_eq_true (by with_unfolding_all rfl)

theorem nanosOf_lt : ∀ n : ℕ, n < 100 → nanosOf n < 1000000000 := by
  decide

theorem t2dL_eval (m s f : List Char) (hm : m.all (· != ':') = true)
    (hs : s.all (· != ':') = true) (mv sv : ℕ) (fv : F64)
    (hm2 : parseU64 m = .ok mv) (hs2 : parseU64 s = .ok sv)
    (hf2 : parseF64 f = .ok fv) :
    t2dL (m ++ ':' :: (s ++ ':' :: f)) =
      .ok (Duration.new
        (wAdd (wAdd (wMul mv 60) sv) (F64.castU64 (F64.floorF (F64.div75 fv))))
        (F64.castU32 (F64.mul1e9 (F64.fract (F64.div75 fv))))) := by
  simp only [t2dL, nextGroup_append _ _ hm, nextGroup_append _ _ hs, hm2, hs2,
    hf2]

theorem t2d_digits (mm ss ff : ℕ) (hm : mm < 100) (hs : ss < 100)
    (hf : ff < 100) :
    t2dL (fmtTs mm ss ff) = .ok ⟨mm * 60 + ss + ff / 75, nanosOf ff⟩ := by
  have hng1 : nextGroup (fmtTs mm ss ff) = (fmt2 mm, fmt2 ss ++ ':' :: fmt2 ff) :=
    nextGroup_append _ _ (fmt2_no_colon mm hm)
  have hng2 : nextGroup (fmt2 ss ++ ':' :: fmt2 ff) = (fmt2 ss, fmt2 ff) :=
    nextGroup_append _ _ (fmt2_no_colon ss hs)
  have hdiv : ff / 75 ≤ ff := Nat.div_le_self ff 75
  have h1 : wMul mm 60 = mm * 60 := Nat.mod_eq_of_lt (by omega)
  have h2 : wAdd (mm * 60) ss = mm * 60 + ss := Nat.mod_eq_of_lt (by omega)
  have h3 : wAdd (mm * 60 + ss) (ff / 75) = mm * 60 + ss + ff / 75 :=
    Nat.mod_eq_of_lt (by omega)
  have hn := nanosOf_lt ff hf
  have h4 : nanosOf ff / 1000000000 = 0 := Nat.div_eq_of_lt hn
  have h5 : nanosOf ff % 1000000000 = nanosOf ff := Nat.mod_eq_of_lt hn
  simp only [t2dL, hng1, hng2, parseF64_fmt2 ff hf, parseU64_fmt2 mm hm,
    parseU64_fmt2 ss hs, frames_floor_fmt2 ff hf, frames_nanos_fmt2 ff hf,
    h1, h2, h3, Duration.new, h4, h5, Nat.add_zero]

/-! ## Supporting lemmas for the assembler -/

theorem parseFrom_append (b : Bool) (xs ys : List InputLine) (c : Cue) :
    parseFrom b c (xs ++ ys) =
      match parseFrom b c xs with
      | some (.ok c2) => parseFrom b c2 ys
      | r => r := by
  induction xs generalizing c with
  | nil => simp [parseFrom]
  | cons x t ih =>
    cases x with
    | error e => simpa only [List.cons_append, parseFrom] using ih c
    | ok l =>
      simp only [List.cons_append, parseFrom]
      cases h : step b c l with
      | none => rfl
      | some r =>
        cases r with
        | error e => rfl
        | ok c2 => exact ih c2

theorem step_eq {l : String} {tk : Except CueError Token}
    (h : tokenize_line l = some tk) (b : Bool) (c : Cue) :
    step b c l = some (dispatch b c tk) := by
  unfold step
  rw [h]

theorem dispatch_strict_ok {c c2 : Cue} {tk : Except CueError Token}
    (h : dispatch true c tk = .ok c2) : dispatch false c tk = .ok c2 := by
  cases tk with
  | error e => simp [dispatch, failIfStrict] at h
  | ok t =>
    cases t with
    | rem k v => exact h
    | catalog v => exact h
    | performer s => exact h
    | title s => exact h
    | file f fmt => exact h
    | unknown raw => simp [dispatch] at h
    | none => simp [dispatch, failIfStrict] at h
    | track no mode =>
      simp only [dispatch] at h ⊢
      cases hf : c.lastFile?.isSome <;> rw [hf] at h
      · simp [failIfStrict] at h
      · exact h
    | index idx time =>
      simp only [dispatch] at h ⊢
      cases hf : c.lastTrack?.isSome <;> rw [hf] at h
      · simp [failIfStrict] at h
      · cases ht : timestamp_to_duration time <;> rw [ht] at h
        · simp [failIfStrict] at h
        · exact h
    | pregap time =>
      simp only [dispatch] at h ⊢
      cases hf : c.lastTrack?.isSome <;> rw [hf] at h
      · simp [failIfStrict] at h
      · cases ht : timestamp_to_duration time <;> rw [ht] at h
        · simp [failIfStrict] at h
        · exact h
    | postgap time =>
      simp only [dispatch] at h ⊢
      cases hf : c.lastTrack?.isSome <;> rw [hf] at h
      · simp [failIfStrict] at h
      · cases ht : timestamp_to_duration time <;> rw [ht] at h
        · simp [failIfStrict] at h
        · exact h

theorem dispatch_lenient_ok (c : Cue) (tk : Except CueError Token) :
    ∃ c2, dispatch false c tk = .ok c2 := by
  cases tk with
  | error e => exact ⟨c, rfl⟩
  | ok t =>
    cases t with
    | rem k v => exact ⟨_, rfl⟩
    | catalog v => exact ⟨_, rfl⟩
    | performer s => exact ⟨_, rfl⟩
    | title s => exact ⟨_, rfl⟩
    | file f fmt => exact ⟨_, rfl⟩
    | unknown raw => exact ⟨_, rfl⟩
    | none => exact ⟨c, rfl⟩
    | track no mode =>
      simp only [dispatch]
      cases hf : c.lastFile?.isSome
      · exact ⟨c, rfl⟩
      · exact ⟨_, rfl⟩
    | index idx time =>
      simp only [dispatch]
      cases hf : c.lastTrack?.isSome
      · exact ⟨c, rfl⟩
      · cases ht : timestamp_to_duration time
        · exact ⟨c, rfl⟩
        · exact ⟨_, rfl⟩
    | pregap time =>
      simp only [dispatch]
      cases hf : c.lastTrack?.isSome
      · exact ⟨c, rfl⟩
      · cases ht : timestamp_to_duration time
        · exact ⟨c, rfl⟩
        · exact ⟨_, rfl⟩
    | postgap time =>
      simp only [dispatch]
      cases hf : c.lastTrack?.isSome
      · exact ⟨c, rfl⟩
      · cases ht : timestamp_to_duration time
        · exact ⟨c, rfl⟩
        · exact ⟨_, rfl⟩

theorem step_lenient_shape (c : Cue) (l : String) :
    step false c l = Option.none ∨ ∃ c2, step false c l = some (.ok c2) := by
  cases htk : tokenize_line l with
  | none => exact Or.inl (by unfold step; rw [htk])
  | some tk =>
    rcases dispatch_lenient_ok c tk with ⟨c2, hd⟩
    exact Or.inr ⟨c2, by rw [step_eq htk, hd]⟩

theorem parseFrom_strict_ok {ls : List InputLine} {c c2 : Cue}
    (h : parseFrom true c ls = some (.ok c2)) :
    parseFrom false c ls = some (.ok c2) := by
  induction ls generalizing c with
  | nil => exact h
  | cons x t ih =>
    cases x with
    | error e => exact ih h
    | ok l =>
      simp only [parseFrom] at h ⊢
      cases htk : tokenize_line l with
      | none =>
        rw [show step true c l = Option.none from by unfold step; rw [htk]] at h
        exact absurd h (by simp)
      | some tk =>
        rw [step_eq htk] at h
        rw [step_eq htk]
        cases hd : dispatch true c tk <;> rw [hd] at h
        · exact absurd h (by simp)
        · rw [dispatch_strict_ok hd]
          exact ih h

theorem parseFrom_lenient_no_error (ls : List InputLine) (c : Cue) :
    isErrorResult (parseFrom false c ls) = false := by
  induction ls generalizing c with
  | nil => rfl
  | cons x t ih =>
    cases x with
    | error e => exact ih c
    | ok l =>
      simp only [parseFrom]
      rcases step_lenient_shape c l with hs | ⟨c2, hs⟩ <;> rw [hs]
      · rfl
      · exact ih c2

theorem parseFrom_lenient_total (ls : List InputLine) (c : Cue)
    (h : ls.all lineTokenizes = true) :
    ∃ c2, parseFrom false c ls = some (.ok c2) := by
  induction ls generalizing c with
  | nil => exact ⟨c, rfl⟩
  | cons x t ih =>
    simp only [List.all_cons, Bool.and_eq_true] at h
    cases x with
    | error e => exact ih c h.2
    | ok l =>
      simp only [parseFrom]
      cases htk : tokenize_line l with
      | none =>
        exfalso
        have h1 := h.1
        simp only [lineTokenizes, htk] at h1
        exact absurd h1 (by simp)
      | some tk =>
        rw [step_eq htk]
        rcases dispatch_lenient_ok c tk with ⟨c2, hd⟩
        rw [hd]
        exact ih c2 h.2

theorem tokenize_trim_empty {l : String} (h : rustTrim l.data = []) :
    tokenize_line l = some (.ok .none) := by
  unfold tokenize_line
  rw [h]
  rfl

theorem step_trim_empty (b : Bool) (c : Cue) {l : String}
    (h : rustTrim l.data = []) :
    step b c l = some (failIfStrict b "bad line" c) := by
  rw [step_eq (tokenize_trim_empty h)]
  rfl

theorem step_title {c : Cue} {l s : String}
    (h : tokenize_line l = some (.ok (.title s))) (b : Bool) :
    step b c l = some (.ok (c.withTitle s)) := by
  rw [step_eq h]
  rfl

theorem step_performer {c : Cue} {l s : String}
    (h : tokenize_line l = some (.ok (.performer s))) (b : Bool) :
    step b c l = some (.ok (c.withPerformer s)) := by
  rw [step_eq h]
  rfl

theorem replaceEsc_id : ∀ l : List Char, hasEscSeq l = false → replaceEsc l = l := by
  intro l
  induction l with
  | nil => intro _; rfl
  | cons c rest ih =>
    intro h
    cases rest with
    | nil => rfl
    | cons d t =>
      simp only [hasEscSeq, Bool.or_eq_false_iff] at h
      simp [replaceEsc, h.1, ih h.2]

/-! ## Claim theorems -/

/-- C1, amended: timestamp_to_duration accepts every string matching
the shape dd:dd:dd with exactly two ASCII digits per field. The original
exactness claim is false: acceptance is not limited to that shape (see the
counterexample, where a string with one-digit fields is also accepted). -/
theorem claim1_two_digit_timestamps_accepted (a b c d e f : ℕ)
    (ha : a < 10) (hb : b < 10) (hc : c < 10) (hd : d < 10) (he : e < 10)
    (hf : f < 10) :
    t2dIsOk (timestamp_to_duration
      ⟨[Nat.digitChar a, Nat.digitChar b, ':', Nat.digitChar c,
        Nat.digitChar d, ':', Nat.digitChar e, Nat.digitChar f]⟩) = true := by
  have h1 : (10 * a + b) / 10 = a := by omega
  have h2 : (10 * a + b) % 10 = b := by omega
  have h3 : (10 * c + d) / 10 = c := by omega
  have h4 : (10 * c + d) % 10 = d := by omega
  have h5 : (10 * e + f) / 10 = e := by omega
  have h6 : (10 * e + f) % 10 = f := by omega
  have hl : fmtTs (10 * a + b) (10 * c + d) (10 * e + f) =
      [Nat.digitChar a, Nat.digitChar b, ':', Nat.digitChar c,
        Nat.digitChar d, ':', Nat.digitChar e, Nat.digitChar f] := by
    simp [fmtTs, fmt2, h1, h2, h3, h4, h5, h6]
  rw [← hl]
  show t2dIsOk (t2dL (fmtTs (10 * a + b) (10 * c + d) (10 * e + f))) = true
  rw [t2d_digits (10 * a + b) (10 * c + d) (10 * e + f) (by omega) (by omega)
    (by omega)]
  rfl

/-- Witness for C1 on the concrete shape-conforming string 12:34:56. -/
theorem claim1_witness :
    t2dIsOk (timestamp_to_duration
      ⟨[Nat.digitChar 1, Nat.digitChar 2, ':', Nat.digitChar 3,
        Nat.digitChar 4, ':', Nat.digitChar 5, Nat.digitChar 6]⟩) = true :=
  claim1_two_digit_timestamps_accepted 1 2 3 4 5 6 (by decide) (by decide)
    (by decide) (by decide) (by decide) (by decide)

/-- Counterexample to C1 as stated: the string 1:2:3 deviates from the
required shape (one digit per field), yet timestamp_to_duration accepts it
and returns 62 seconds and 40000000 nanoseconds. -/
theorem claim1_counterexample :
    timestamp_to_duration "1:2:3" = .ok ⟨62, 40000000⟩ := by
  have hf3 : parseF64 ['3'] = .ok (.finite ((3 : ℕ) : ℚ)) :=
    of_decide_eq_true (by with_unfolding_all rfl)
  have h := t2dL_eval ['1'] ['2'] ['3'] (by decide) (by decide) 1 2
    (.finite ((3 : ℕ) : ℚ)) (by decide) (by decide) hf3
  show t2dL "1:2:3".data = _
  have hdata : "1:2:3".data = ['1'] ++ ':' :: (['2'] ++ ':' :: ['3']) := by
    decide
  rw [hdata, h, frames_floor_fmt2 3 (by omega), frames_nanos_fmt2 3 (by omega)]
  decide

/-- C2, amended: for mm, ss, ff all at most 99, parsing the two-digit
timestamp mm:ss:ff yields mm * 60 + ss + ff / 75 whole seconds and nanosOf
ff nanoseconds, where nanosOf ff is the exact
trunc(fract(ff / 75) * 10^9) except at ff = 87 and ff = 90, where the
binary64 arithmetic of the source yields one nanosecond less (the original
exact formula fails there, see the counterexample). -/
theorem claim2_two_digit_timestamp_value (mm ss ff : ℕ) (hm : mm ≤ 99)
    (hs : ss ≤ 99) (hf : ff ≤ 99) :
    timestamp_to_duration ⟨fmtTs mm ss ff⟩ =
      .ok ⟨mm * 60 + ss + ff / 75, nanosOf ff⟩ := by
  show t2dL (fmtTs mm ss ff) = _
  exact t2d_digits mm ss ff (by omega) (by omega) (by omega)

/-- Witness for C2 at the two concrete examples named by the claim:
99:99:99 gives 6040 s + 320000000 ns and 04:17:52 gives
257 s + 693333333 ns. -/
theorem claim2_witness :
    timestamp_to_duration ⟨fmtTs 99 99 99⟩ = .ok ⟨6040, 320000000⟩ ∧
    timestamp_to_duration ⟨fmtTs 4 17 52⟩ = .ok ⟨257, 693333333⟩ :=
  ⟨claim2_two_digit_timestamp_value 99 99 99 (by decide) (by decide) (by decide),
   claim2_two_digit_timestamp_value 4 17 52 (by decide) (by decide) (by decide)⟩

/-- Counterexample to C2 as stated: at 00:00:87 the code produces 159999999
nanoseconds, while the exact formula trunc(fract(87 / 75) * 10^9) of the
claim gives 160000000. -/
theorem claim2_counterexample :
    timestamp_to_duration "00:00:87" = .ok ⟨1, 159999999⟩ ∧
    87 % 75 * 1000000000 / 75 = 160000000 := by
  constructor
  · show t2dL "00:00:87".data = _
    have hdata : "00:00:87".data = fmtTs 0 0 87 := by decide
    rw [hdata, t2d_digits 0 0 87 (by omega) (by omega) (by omega)]
    decide
  · decide

/-- C3, amended: a TITLE or PERFORMER line anywhere in the input updates
exactly the title (respectively performer) of the most recently opened track
of the most recently opened file when such a track exists, and otherwise the
disc field, overwriting any previous value (last-wins); SONGWRITER is not a
recognized command in this parser (see the counterexample: it is collected
as an unknown line and no songwriter field exists). -/
theorem claim3_title_performer_attribution (b : Bool)
    (pre post : List InputLine) (l s : String) (c : Cue)
    (hpre : parseFrom b Cue.new pre = some (.ok c)) :
    (tokenize_line l = some (.ok (.title s)) →
      parse (pre ++ .ok l :: post) b = parseFrom b (c.withTitle s) post) ∧
    (tokenize_line l = some (.ok (.performer s)) →
      parse (pre ++ .ok l :: post) b = parseFrom b (c.withPerformer s) post) := by
  constructor <;> intro h
  · unfold parse
    rw [parseFrom_append, hpre]
    show parseFrom b c (.ok l :: post) = _
    simp only [parseFrom]
    rw [step_title h b]
  · unfold parse
    rw [parseFrom_append, hpre]
    show parseFrom b c (.ok l :: post) = _
    simp only [parseFrom]
    rw [step_performer h b]

/-- Witness for C3: with an open track, a TITLE line updates that track. -/
theorem claim3_witness :
    parse ([Except.ok "FILE f WAVE", Except.ok "TRACK 01 AUDIO"] ++
        Except.ok "TITLE X" :: []) false =
      parseFrom false (c3PreCue.withTitle "X") [] :=
  (claim3_title_performer_attribution false
    [Except.ok "FILE f WAVE", Except.ok "TRACK 01 AUDIO"] [] "TITLE X" "X"
    c3PreCue (by decide)).1 (by decide)

/-- Counterexample to C3 as stated: a SONGWRITER line is not stored in any
songwriter field (the parser record has none); the whole raw line is
appended to the unknown list of the disc. -/
theorem claim3_counterexample :
    parse [Except.ok "SONGWRITER X"] false =
      some (.ok ⟨[], Option.none, Option.none, Option.none, [],
        ["SONGWRITER X"]⟩) := by
  decide

/-- C4: whenever strict parsing succeeds with a cue, lenient parsing of the
same input succeeds with exactly the same cue (no extra unknown entries, no
dropped line effects). -/
theorem claim4_strict_refines_lenient (lines : List InputLine) (c : Cue)
    (h : parse lines true = some (.ok c)) : parse lines false = some (.ok c) :=
  parseFrom_strict_ok h

/-- Witness for C4 on a three-line input accepted by strict mode. -/
theorem claim4_witness :
    parse [Except.ok "FILE f.wav WAVE", Except.ok "TRACK 01 AUDIO",
        Except.ok "TITLE A"] false =
      some (.ok ⟨[⟨"f.wav", "WAVE",
        [⟨"01", "AUDIO", some "A", Option.none, [], Option.none, Option.none,
          [], []⟩], []⟩], Option.none, Option.none, Option.none, [], []⟩) :=
  claim4_strict_refines_lenient _ _ (by decide)

/-- C5, amended: on the single line FILE with no arguments, strict parsing
returns the parse error strict mode failure: bad line, but lenient parsing
does not error: the line is skipped and the empty disc is returned. -/
theorem claim5_bare_file :
    parse [Except.ok "FILE"] true =
      some (.error (.parse "strict mode failure: bad line")) ∧
    parse [Except.ok "FILE"] false = some (.ok Cue.new) := by
  decide

/-- Counterexample to C5 as stated: in lenient mode the single line FILE
does not produce a parse error. -/
theorem claim5_counterexample :
    isErrorResult (parse [Except.ok "FILE"] false) = false := by
  decide

/-- C6, amended: lenient parsing never returns an error (in particular none
is surfaced for I/O error lines, which are silently skipped), and on every
input whose successfully read lines all tokenize without panicking it runs
to end of stream and returns a cue. The original claim that every
tokenization failure is survived is false: a line whose string argument
makes unescape_quotes panic aborts parsing (see the counterexample). -/
theorem claim6_lenient_never_errors (lines : List InputLine) :
    isErrorResult (parse lines false) = false ∧
    (lines.all lineTokenizes = true →
      ∃ c, parse lines false = some (.ok c)) :=
  ⟨parseFrom_lenient_no_error lines Cue.new,
   fun h => parseFrom_lenient_total lines Cue.new h⟩

/-- Witness for C6 on an input with an unknown line, an I/O error line and
an orphan INDEX with a bad timestamp. -/
theorem claim6_witness :
    isErrorResult (parse [Except.ok "FOO 1", Except.error "disk error",
      Except.ok "INDEX 01 bad"] false) = false ∧
    ∃ c, parse [Except.ok "FOO 1", Except.error "disk error",
      Except.ok "INDEX 01 bad"] false = some (.ok c) :=
  ⟨(claim6_lenient_never_errors _).1,
   (claim6_lenient_never_errors _).2 (by decide)⟩

/-- Counterexample to C6 as stated: the tokenizer panic on a lone quote
aborts lenient parsing instead of being skipped. -/
theorem claim6_counterexample :
    parse [Except.ok "REM K \""] false = Option.none := by
  decide

/-- C7, amended: a missing required argument is a parse failure naming the
field for REM, FILE, TRACK, PREGAP, POSTGAP and INDEX, but not for CATALOG,
TITLE and PERFORMER, which accept a missing argument as the empty string. -/
theorem claim7_missing_arguments :
    tokenize_line "REM" = some (.error (.parse "missing REM key")) ∧
    tokenize_line "FILE" = some (.error (.parse "bare FILE token")) ∧
    tokenize_line "TRACK" = some (.error (.parse "missing TRACK number")) ∧
    tokenize_line "TRACK 01" = some (.error (.parse "missing TRACK mode")) ∧
    tokenize_line "PREGAP" =
      some (.error (.parse "missing PREGAP duration")) ∧
    tokenize_line "POSTGAP" =
      some (.error (.parse "missing POSTGAP duration")) ∧
    tokenize_line "INDEX" = some (.error (.parse "missing INDEX number")) ∧
    tokenize_line "INDEX 01" = some (.error (.parse "missing INDEX time")) ∧
    tokenize_line "CATALOG" = some (.ok (.catalog "")) ∧
    tokenize_line "TITLE" = some (.ok (.title "")) ∧
    tokenize_line "PERFORMER" = some (.ok (.performer "")) := by
  decide

/-- Counterexample to C7 as stated: the line TITLE with its required
argument missing does not return a parse failure; it tokenizes to a Title
token carrying the empty string. -/
theorem claim7_counterexample :
    tokenize_line "TITLE" = some (.ok (.title "")) := by
  decide

/-- C8: a line that is empty after trimming has no effect in lenient mode
(the result equals that of the input without the line), and in strict mode
parsing fails with strict mode failure: bad line as soon as the line is
reached. -/
theorem claim8_empty_lines (pre post : List InputLine) (l : String) (c : Cue)
    (h : rustTrim l.data = []) :
    (parse (pre ++ .ok l :: post) false = parse (pre ++ post) false) ∧
    (parseFrom true Cue.new pre = some (.ok c) →
      parse (pre ++ .ok l :: post) true =
        some (.error (.parse "strict mode failure: bad line"))) := by
  constructor
  · unfold parse
    rw [parseFrom_append, parseFrom_append]
    cases hp : parseFrom false Cue.new pre
    · rfl
    · rename_i r
      cases r with
      | error e => rfl
      | ok c1 =>
        show parseFrom false c1 (.ok l :: post) = parseFrom false c1 post
        simp only [parseFrom]
        rw [step_trim_empty false c1 h]
        rfl
  · intro hpre
    unfold parse
    rw [parseFrom_append, hpre]
    show parseFrom true c (.ok l :: post) = _
    simp only [parseFrom]
    rw [step_trim_empty true c h]
    rfl

/-- Witness for C8 with an empty line followed by a TITLE line. -/
theorem claim8_witness :
    (parse ([] ++ Except.ok "" :: [Except.ok "TITLE A"]) false =
      parse ([] ++ [Except.ok "TITLE A"]) false) ∧
    parse ([] ++ Except.ok "" :: [Except.ok "TITLE A"]) true =
      some (.error (.parse "strict mode failure: bad line")) := by
  have h := claim8_empty_lines [] [Except.ok "TITLE A"] "" Cue.new (by decide)
  exact ⟨h.1, h.2 (by decide)⟩

/-- C9: unescape_quotes returns its input unchanged whenever the input does
not both start and end with a double quote and contains no
backslash-double-quote escape sequence. -/
theorem claim9_unescape_unquoted_id (s : String)
    (h1 : ¬(s.data.head? = some '"' ∧ s.data.getLast? = some '"'))
    (h2 : hasEscSeq s.data = false) :
    unescape_quotes s = some s := by
  unfold unescape_quotes unescapeL
  rw [replaceEsc_id s.data h2]
  rw [if_neg]
  · rfl
  · intro hc
    simp only [Bool.and_eq_true, decide_eq_true_eq] at hc
    exact h1 ⟨hc.2, hc.1⟩

/-- Witness for C9 on a plain unquoted string. -/
theorem claim9_witness : unescape_quotes "abc" = some "abc" :=
  claim9_unescape_unquoted_id "abc" (by decide) (by decide)

/-- C10: the claim that unescape_quotes is total is wrong about the code: on
the one-character string consisting of a single double quote, the pop
empties the string and String::remove(0) panics; the panic is reachable
from parse through a TITLE line whose argument is a lone double quote. -/
theorem claim10_lone_quote_panics :
    unescape_quotes "\"" = Option.none ∧
    parse [Except.ok "TITLE \""] false = Option.none := by
  decide

end Rcue
